import Mathlib

/-!
Verification of the rubric-matching and response-reconciliation backend
(`backend/main.py`).  The Python operations `parse_rubric`, `score_essay`
and `detect_sections` are shallowly embedded as executable Lean functions
over a JSON value model; the LLM completion oracle is an explicit
function parameter `String → String` and the in-memory rubric store is an
explicit association list threaded through the functions.
-/

namespace RubricBackend

/-- JSON values as produced by Python's `json.loads`.  Numbers are modelled
as integers: the backend validates `max_score` with `isinstance(ms, int)`
and converts scores with `int(...)`, and the embedded strict parser below
rejects fractional/exponent literals (a documented restriction of the
model; no claim depends on float payloads). -/
inductive Json where
  | null : Json
  | bool (b : Bool) : Json
  | num (n : Int) : Json
  | str (s : String) : Json
  | arr (xs : List Json) : Json
  | obj (kvs : List (String × Json)) : Json
  deriving Repr

mutual

/-- Decidable equality on JSON values. -/
def Json.decEq : (a b : Json) → Decidable (a = b)
  | .null, .null => isTrue rfl
  | .bool a, .bool b =>
    if h : a = b then isTrue (h ▸ rfl)
    else isFalse (fun hc => h (Json.bool.inj hc))
  | .num a, .num b =>
    if h : a = b then isTrue (h ▸ rfl)
    else isFalse (fun hc => h (Json.num.inj hc))
  | .str a, .str b =>
    if h : a = b then isTrue (h ▸ rfl)
    else isFalse (fun hc => h (Json.str.inj hc))
  | .arr xs, .arr ys =>
    match Json.decEqList xs ys with
    | isTrue h => isTrue (h ▸ rfl)
    | isFalse h => isFalse (fun hc => h (Json.arr.inj hc))
  | .obj xs, .obj ys =>
    match Json.decEqKVs xs ys with
    | isTrue h => isTrue (h ▸ rfl)
    | isFalse h => isFalse (fun hc => h (Json.obj.inj hc))
  | .null, .bool _ | .null, .num _ | .null, .str _ | .null, .arr _
  | .null, .obj _ | .bool _, .null | .bool _, .num _ | .bool _, .str _
  | .bool _, .arr _ | .bool _, .obj _ | .num _, .null | .num _, .bool _
  | .num _, .str _ | .num _, .arr _ | .num _, .obj _ | .str _, .null
  | .str _, .bool _ | .str _, .num _ | .str _, .arr _ | .str _, .obj _
  | .arr _, .null | .arr _, .bool _ | .arr _, .num _ | .arr _, .str _
  | .arr _, .obj _ | .obj _, .null | .obj _, .bool _ | .obj _, .num _
  | .obj _, .str _ | .obj _, .arr _ => isFalse (by intro h; exact Json.noConfusion h)

/-- Decidable equality on JSON value lists. -/
def Json.decEqList : (xs ys : List Json) → Decidable (xs = ys)
  | [], [] => isTrue rfl
  | [], _ :: _ => isFalse (by intro h; exact List.noConfusion h)
  | _ :: _, [] => isFalse (by intro h; exact List.noConfusion h)
  | x :: xs, y :: ys =>
    match Json.decEq x y, Json.decEqList xs ys with
    | isTrue h1, isTrue h2 => isTrue (h1 ▸ h2 ▸ rfl)
    | isFalse h1, _ => isFalse (fun hc => h1 (List.cons.inj hc).1)
    | _, isFalse h2 => isFalse (fun hc => h2 (List.cons.inj hc).2)

/-- Decidable equality on JSON key-value lists. -/
def Json.decEqKVs : (xs ys : List (String × Json)) → Decidable (xs = ys)
  | [], [] => isTrue rfl
  | [], _ :: _ => isFalse (by intro h; exact List.noConfusion h)
  | _ :: _, [] => isFalse (by intro h; exact List.noConfusion h)
  | (k, v) :: xs, (k', v') :: ys =>
    if h0 : k = k' then
      match Json.decEq v v', Json.decEqKVs xs ys with
      | isTrue h1, isTrue h2 => isTrue (by subst h0; subst h1; subst h2; rfl)
      | isFalse h1, _ =>
        isFalse (fun hc => h1 (congrArg Prod.snd (List.cons.inj hc).1))
      | _, isFalse h2 => isFalse (fun hc => h2 (List.cons.inj hc).2)
    else isFalse (fun hc => h0 (congrArg Prod.fst (List.cons.inj hc).1))

end

instance : DecidableEq Json := Json.decEq

/-- Python `dict` insertion semantics: overwriting an existing key keeps the
key's original position and updates the value; a fresh key is appended. -/
def insertKV (kvs : List (String × Json)) (k : String) (v : Json) :
    List (String × Json) :=
  match kvs with
  | [] => [(k, v)]
  | (k', v') :: rest =>
    if k' = k then (k', v) :: rest else (k', v') :: insertKV rest k v

/-- Dictionary lookup (keys are unique by construction via `insertKV`). -/
def objGet (kvs : List (String × Json)) (k : String) : Option Json :=
  match kvs with
  | [] => none
  | (k', v) :: rest => if k' = k then some v else objGet rest k

/-- Word character for the regexes in `backend/main.py` (`\w` and `\b`),
restricted to ASCII; Python's Unicode word characters beyond ASCII are not
modelled, and no claim depends on them. -/
def isWordChar (c : Char) : Bool :=
  c.isAlphanum || c = '_'

/-- Whitespace stripped by Python's `str.strip()` (ASCII portion). -/
def trimChars (s : List Char) : List Char :=
  ((s.dropWhile Char.isWhitespace).reverse.dropWhile Char.isWhitespace).reverse

/-- Left and right brace characters (written via code points). -/
def lbrace : Char := Char.ofNat 123

/-- Right brace character. -/
def rbrace : Char := Char.ofNat 125

/-- Markdown fence stripping done at the top of both response-cleaning
blocks (`main.py` lines 175-182 and 339-346): strip, drop a leading
"```json" (7 chars) else a leading "```" (3 chars), drop a trailing
"```", strip again. -/
def stripFences (s : List Char) : List Char :=
  let s := trimChars s
  let s := if "```json".data.isPrefixOf s then s.drop 7 else s
  let s := if "```".data.isPrefixOf s then s.drop 3 else s
  let s := if "```".data.isSuffixOf s then s.take (s.length - 3) else s
  trimChars s

/-- Model of `re.sub(r'\b(\w+):', r'"\1":', s)` (`main.py` lines 188 and
351): scanning left to right, a maximal run of word characters that starts
at a word boundary and is immediately followed by `:` is wrapped in double
quotes.  The `prevWord` flag records whether the previous character was a
word character (no boundary); `fuel` is the remaining input length. -/
def quoteBareKeysGo (fuel : Nat) (prevWord : Bool) (s : List Char) : List Char :=
  match fuel, s with
  | 0, s => s
  | _, [] => []
  | fuel + 1, c :: cs =>
    if isWordChar c && !prevWord then
      let run := (c :: cs).takeWhile isWordChar
      let rest := (c :: cs).dropWhile isWordChar
      match rest with
      | ':' :: rest' =>
        '"' :: run ++ '"' :: ':' :: quoteBareKeysGo fuel false rest'
      | _ => run ++ quoteBareKeysGo fuel true rest
    else
      c :: quoteBareKeysGo fuel (isWordChar c) cs

/-- Entry point for the bare-key quoting substitution. -/
def quoteBareKeys (s : List Char) : List Char :=
  quoteBareKeysGo s.length false s

/-- Model of `re.sub(r'""([^"]+)"":', r'"\1":', s)` (`main.py` lines 190
and 353): collapse doubled quotes around a key.  On a failed match the scan
advances one character, as the regex engine does. -/
def fixDoubleQuotedKeysGo (fuel : Nat) (s : List Char) : List Char :=
  match fuel, s with
  | 0, s => s
  | _, [] => []
  | fuel + 1, c :: cs =>
    match c, cs with
    | '"', '"' :: rest =>
      let content := rest.takeWhile (· ≠ '"')
      let after := rest.dropWhile (· ≠ '"')
      match content, after with
      | _ :: _, '"' :: '"' :: ':' :: rest' =>
        '"' :: content ++ '"' :: ':' :: fixDoubleQuotedKeysGo fuel rest'
      | _, _ => c :: fixDoubleQuotedKeysGo fuel cs
    | _, _ => c :: fixDoubleQuotedKeysGo fuel cs

/-- Entry point for the doubled-quote key substitution. -/
def fixDoubleQuotedKeys (s : List Char) : List Char :=
  fixDoubleQuotedKeysGo s.length s

/-- Model of `re.sub(r'"\\"([^"]+)\\"":', r'"\1":', s)` (`main.py` lines
192 and 355), which rewrites keys that came out as `"\"key\"":`.  The
greedy `[^"]+` can only match up to the next quote, so a successful match
needs the maximal non-quote run after `"\"` to end in a backslash and be
followed by `"":`. -/
def fixEscapedQuotedKeysGo (fuel : Nat) (s : List Char) : List Char :=
  match fuel, s with
  | 0, s => s
  | _, [] => []
  | fuel + 1, c :: cs =>
    match c, cs with
    | '"', '\\' :: '"' :: rest =>
      let run := rest.takeWhile (· ≠ '"')
      let after := rest.dropWhile (· ≠ '"')
      match after with
      | '"' :: '"' :: ':' :: rest' =>
        if run.length ≥ 2 && run.getLast? = some '\\' then
          '"' :: run.dropLast ++ '"' :: ':' :: fixEscapedQuotedKeysGo fuel rest'
        else c :: fixEscapedQuotedKeysGo fuel cs
      | _ => c :: fixEscapedQuotedKeysGo fuel cs
    | _, _ => c :: fixEscapedQuotedKeysGo fuel cs

/-- Entry point for the escaped-quote key substitution. -/
def fixEscapedQuotedKeys (s : List Char) : List Char :=
  fixEscapedQuotedKeysGo s.length s

/-- Model of `re.sub(r'(\w)"(\w)', r"\1'\2", s)` (`main.py` lines 204 and
372): restore an apostrophe between two word characters. After a match the
scan resumes past the three matched characters. -/
def fixApostrophesGo (fuel : Nat) (s : List Char) : List Char :=
  match fuel, s with
  | 0, s => s
  | fuel + 1, a :: '"' :: b :: rest =>
    if isWordChar a && isWordChar b then a :: '\'' :: b :: fixApostrophesGo fuel rest
    else a :: fixApostrophesGo fuel ('"' :: b :: rest)
  | fuel + 1, a :: cs => a :: fixApostrophesGo fuel cs
  | _, [] => []

/-- The single-quote repair attempt (`main.py` lines 202-204 and 371-372):
replace every single quote with a double quote, then turn a double quote
between two word characters back into an apostrophe. -/
def fixApostrophes (s : List Char) : List Char :=
  fixApostrophesGo s.length s

/-- The single-quote repair attempt (`main.py` lines 202-204 and 371-372):
replace every single quote with a double quote, then turn a double quote
between two word characters back into an apostrophe. -/
def singleQuoteFix (s : List Char) : List Char :=
  fixApostrophes (s.map fun c => if c = '\'' then '"' else c)

/-- The combined cleaning applied unconditionally before the first parse
attempt in both `parse_rubric` (lines 175-192) and `score_essay` (lines
339-355): strip markdown fences, then the three key-fixing substitutions
in source order. -/
def cleanResponse (raw : String) : List Char :=
  fixEscapedQuotedKeys (fixDoubleQuotedKeys (quoteBareKeys (stripFences raw.data)))

/-- JSON insignificant whitespace (RFC 8259, as accepted by `json.loads`). -/
def isJsonWs (c : Char) : Bool :=
  c = ' ' || c = '\t' || c = '\n' || c = '\r'

/-- Skip insignificant whitespace. -/
def skipWs (s : List Char) : List Char :=
  s.dropWhile isJsonWs

/-- Value of a hexadecimal digit. -/
def hexDigitVal (c : Char) : Option Nat :=
  if '0' ≤ c ∧ c ≤ '9' then some (c.toNat - 48)
  else if 'a' ≤ c ∧ c ≤ 'f' then some (c.toNat - 87)
  else if 'A' ≤ c ∧ c ≤ 'F' then some (c.toNat - 55)
  else none

/-- Single-character JSON string escapes. -/
def escChar (c : Char) : Option Char :=
  if c = '"' then some '"'
  else if c = '\\' then some '\\'
  else if c = '/' then some '/'
  else if c = 'b' then some (Char.ofNat 8)
  else if c = 'f' then some (Char.ofNat 12)
  else if c = 'n' then some '\n'
  else if c = 'r' then some '\r'
  else if c = 't' then some '\t'
  else none

/-- Body of a JSON string literal, after the opening quote: returns the
decoded characters and the input after the closing quote.  Unescaped
control characters are rejected as in strict `json.loads`; surrogate-pair
recombination for `\u` escapes is not modelled. -/
def parseStrGo (fuel : Nat) (s : List Char) : Option (List Char × List Char) :=
  match fuel, s with
  | 0, _ => none
  | _, [] => none
  | _ + 1, '"' :: rest => some ([], rest)
  | fuel + 1, '\\' :: 'u' :: h1 :: h2 :: h3 :: h4 :: rest =>
    match hexDigitVal h1, hexDigitVal h2, hexDigitVal h3, hexDigitVal h4 with
    | some a, some b, some c, some d =>
      (parseStrGo fuel rest).map fun (cs, r) =>
        (Char.ofNat (((a * 16 + b) * 16 + c) * 16 + d) :: cs, r)
    | _, _, _, _ => none
  | fuel + 1, '\\' :: e :: rest =>
    match escChar e with
    | some c => (parseStrGo fuel rest).map fun (cs, r) => (c :: cs, r)
    | none => none
  | fuel + 1, c :: rest =>
    if c.toNat < 32 then none
    else (parseStrGo fuel rest).map fun (cs, r) => (c :: cs, r)

/-- Entry point for string-literal bodies: the fuel bound of the input
length suffices since every step consumes at least one character. -/
def parseStringBody (s : List Char) : Option (List Char × List Char) :=
  parseStrGo s.length s

/-- Numeric value of a digit list. -/
def digitsToNat (ds : List Char) : Nat :=
  ds.foldl (fun a c => a * 10 + (c.toNat - 48)) 0

/-- An integer JSON number token: optional minus, digits without a
superfluous leading zero, not followed by a fraction or exponent (floats
are outside the model). -/
def parseNumTok (s : List Char) : Option (Int × List Char) :=
  let neg := match s with | '-' :: _ => true | _ => false
  let s1 := if neg then s.drop 1 else s
  let ds := s1.takeWhile Char.isDigit
  let rest := s1.dropWhile Char.isDigit
  if ds.isEmpty then none
  else if ds.length > 1 && ds.head? = some '0' then none
  else
    match rest with
    | '.' :: _ => none
    | 'e' :: _ => none
    | 'E' :: _ => none
    | _ => some (if neg then -(digitsToNat ds : Int) else (digitsToNat ds : Int), rest)

/-- Consume an expected literal. -/
def dropLit (lit s : List Char) : Option (List Char) :=
  if lit.isPrefixOf s then some (s.drop lit.length) else none

mutual

/-- Strict JSON value parser (recursive descent, fuel-indexed; the entry
point supplies ample fuel, so exhaustion never occurs on real input). -/
def parseJ (fuel : Nat) (s : List Char) : Option (Json × List Char) :=
  match fuel with
  | 0 => none
  | fuel + 1 =>
    match skipWs s with
    | [] => none
    | c :: cs =>
      if c = '"' then
        (parseStringBody cs).map fun (str, r) => (.str (String.mk str), r)
      else if c = 't' then
        (dropLit "rue".data cs).map fun r => (.bool true, r)
      else if c = 'f' then
        (dropLit "alse".data cs).map fun r => (.bool false, r)
      else if c = 'n' then
        (dropLit "ull".data cs).map fun r => (.null, r)
      else if c = '[' then
        match skipWs cs with
        | ']' :: r => some (.arr [], r)
        | _ => (parseArrItems fuel cs []).map fun (xs, r) => (Json.arr xs, r)
      else if c = lbrace then
        match skipWs cs with
        | d :: r => if d = rbrace then some (.obj [], r)
                    else (parseObjItems fuel cs []).map fun (kvs, r') => (Json.obj kvs, r')
        | [] => none
      else
        (parseNumTok (c :: cs)).map fun (n, r) => (Json.num n, r)

/-- Comma-separated array elements, ending at `]`. -/
def parseArrItems (fuel : Nat) (s : List Char) (acc : List Json) :
    Option (List Json × List Char) :=
  match fuel with
  | 0 => none
  | fuel + 1 =>
    match parseJ fuel s with
    | none => none
    | some (v, r) =>
      match skipWs r with
      | ',' :: r' => parseArrItems fuel r' (acc ++ [v])
      | ']' :: r' => some (acc ++ [v], r')
      | _ => none

/-- Comma-separated object members, ending at the closing brace; duplicate
keys collapse with last-value-wins as in Python dicts. -/
def parseObjItems (fuel : Nat) (s : List Char) (acc : List (String × Json)) :
    Option (List (String × Json) × List Char) :=
  match fuel with
  | 0 => none
  | fuel + 1 =>
    match skipWs s with
    | '"' :: cs =>
      match parseStringBody cs with
      | none => none
      | some (k, r) =>
        match skipWs r with
        | ':' :: r' =>
          match parseJ fuel r' with
          | none => none
          | some (v, r2) =>
            let acc' := insertKV acc (String.mk k) v
            match skipWs r2 with
            | ',' :: r3 => parseObjItems fuel r3 acc'
            | d :: r3 => if d = rbrace then some (acc', r3) else none
            | [] => none
        | _ => none
    | _ => none

end

/-- Model of `json.loads` on the character list: parse one value and require
only whitespace to remain (Python's "Extra data" check).  `NaN/Infinity`
extensions and float literals are not modelled. -/
def jsonParse (s : List Char) : Option Json :=
  match parseJ (3 * s.length + 8) s with
  | some (v, rest) => if skipWs rest = [] then some v else none
  | none => none

/-- A stored rubric criterion after validation/normalization (`main.py`
lines 230-257).  The backend never validates that `item["key"]` is a
string, so `key` stays a JSON value; `max_score` passed the
`isinstance(ms, int) and ms >= 1` check; `levels` is the converted and
placeholder-filled mapping.  Extra dict fields of the oracle item are
never read again and are not retained by the model. -/
structure RubricItem where
  key : Json
  max_score : Int
  levels : List (Int × Json)
  deriving DecidableEq, Repr

/-- Response model `LLMMatch` (`main.py` lines 73-78). -/
structure LLMMatch where
  criterion : String
  score : Int
  max_score : Int
  snippet : Option String := none
  suggestion : Option String := none
  deriving DecidableEq, Repr

/-- Response model `Section` (`main.py` lines 69-71). -/
structure Section where
  name : String
  text : String
  deriving DecidableEq, Repr

/-- The distinct failure exits of the embedded endpoints (HTTPException
sites; the detail strings are transport plumbing and are not modelled). -/
inductive ApiError where
  | notFound
  | invalidJson
  | notAList
  | itemNotDict
  | missingFields
  | invalidLevelKey
  | invalidMaxScore
  | levelsFault
  | scoreParseError
  | criterionFault
  deriving DecidableEq, Repr

/-- The process-wide store `parsed_rubrics` (`main.py` line 57). -/
abbrev RubricCache := List (String × List RubricItem)

/-- Store lookup (`rubric_id in parsed_rubrics` / `parsed_rubrics[...]`). -/
def lookupCache (store : RubricCache) (k : String) : Option (List RubricItem) :=
  match store with
  | [] => none
  | (k', v) :: rest => if k' = k then some v else lookupCache rest k

/-- Store insertion of a fresh key (`parsed_rubrics[rubric_id] = parsed`;
only reached when the key was absent). -/
def insertCache (store : RubricCache) (k : String) (v : List RubricItem) :
    RubricCache :=
  store ++ [(k, v)]

/-- Python `int(s)` on a string: surrounding whitespace, an optional sign,
then decimal digits (digit-group underscores are not modelled). -/
def pyIntOfString (s : String) : Option Int :=
  let t := trimChars s.data
  let neg := match t with | '-' :: _ => true | _ => false
  let t1 := match t with
    | '-' :: r => r
    | '+' :: r => r
    | _ => t
  if !t1.isEmpty && t1.all Char.isDigit then
    some (if neg then -(digitsToNat t1 : Int) else (digitsToNat t1 : Int))
  else none

/-- Python `int(x)` on a decoded JSON value (floats are outside the model;
`bool` is an `int` subclass in Python). -/
def pyIntOfJson : Json → Option Int
  | .num n => some n
  | .bool b => some (if b then 1 else 0)
  | .str s => pyIntOfString s
  | _ => none

/-- Python `isinstance(x, int)` together with the extracted value
(`True`/`False` count as `1`/`0`). -/
def pyIsInstanceInt : Json → Option Int
  | .num n => some n
  | .bool b => some (if b then 1 else 0)
  | _ => none

/-- Level lookup in the converted mapping (`level_num in levels`). -/
def lookupLevel (lv : List (Int × Json)) (n : Int) : Option Json :=
  match lv with
  | [] => none
  | (m, v) :: rest => if m = n then some v else lookupLevel rest n

/-- Level insertion with Python dict overwrite semantics
(`levels[int(k)] = v`). -/
def insertLevel (lv : List (Int × Json)) (n : Int) (v : Json) :
    List (Int × Json) :=
  match lv with
  | [] => [(n, v)]
  | (m, v') :: rest =>
    if m = n then (m, v) :: rest else (m, v') :: insertLevel rest n v

/-- The level-key conversion loop (`main.py` lines 241-246): every raw key
must convert with `int(k)`, else the build fails with "Invalid level key". -/
def convertLevelsGo (acc : List (Int × Json)) :
    List (String × Json) → Option (List (Int × Json))
  | [] => some acc
  | (k, v) :: rest =>
    match pyIntOfString k with
    | some n => convertLevelsGo (insertLevel acc n v) rest
    | none => none

/-- Convert all raw level keys to integers. -/
def convertLevels (raw : List (String × Json)) : Option (List (Int × Json)) :=
  convertLevelsGo [] raw

/-- The synthesized description for a missing level (`main.py` line 255). -/
def placeholderDesc (n : Int) : String :=
  "Level " ++ toString n ++ " description (auto-generated)"

/-- The placeholder-filling loop (`main.py` lines 252-255):
`for level_num in range(ms + 1)`, appending a placeholder for each missing
level; `n` is the next level number and `count` the remaining iterations. -/
def fillLevelsGo (lv : List (Int × Json)) (n count : Nat) : List (Int × Json) :=
  match count with
  | 0 => lv
  | count + 1 =>
    let lv' := if (lookupLevel lv n).isSome then lv
               else lv ++ [((n : Int), .str (placeholderDesc n))]
    fillLevelsGo lv' (n + 1) count

/-- Ensure all levels from `0` to `max_score` exist. -/
def fillLevels (ms : Int) (lv : List (Int × Json)) : List (Int × Json) :=
  fillLevelsGo lv 0 (ms.toNat + 1)

/-- Validation and normalization of one parsed rubric item (`main.py`
lines 230-257), in source order: dict check, required-field check, level
key conversion (a non-dict `levels` raises `AttributeError`, caught by the
catch-all handler), the `isinstance(ms, int) and ms >= 1` check, then
placeholder filling. -/
def normalizeItem (item : Json) : Except ApiError RubricItem :=
  match item with
  | .obj kvs =>
    match objGet kvs "key", objGet kvs "max_score", objGet kvs "levels" with
    | some keyV, some msV, some levelsV =>
      match levelsV with
      | .obj levelsRaw =>
        match convertLevels levelsRaw with
        | none => .error .invalidLevelKey
        | some levels0 =>
          match pyIsInstanceInt msV with
          | some ms =>
            if 1 ≤ ms then .ok ⟨keyV, ms, fillLevels ms levels0⟩
            else .error .invalidMaxScore
          | none => .error .invalidMaxScore
      | _ => .error .levelsFault
    | _, _, _ => .error .missingFields
  | _ => .error .itemNotDict

/-- The per-item validation loop over the parsed array (`main.py` line
230): the first invalid item fails the whole build. -/
def normalizeItems : List Json → Except ApiError (List RubricItem)
  | [] => .ok []
  | item :: rest =>
    match normalizeItem item with
    | .error e => .error e
    | .ok it => (normalizeItems rest).map (it :: ·)

/-- The last-resort extraction (`main.py` lines 215-218): the substring
from the first `[` to the last `]`, required to be non-degenerate
(`start >= 0 and end > start`). -/
def extractArraySlice (s : List Char) : Option (List Char) :=
  match s.findIdx? (· = '['), (s.reverse.findIdx? (· = ']')).map (s.length - 1 - ·) with
  | some start, some last =>
    if start < last + 1 then some ((s.take (last + 1)).drop start) else none
  | _, _ => none

/-- The `parse_rubric` response repair (`main.py` lines 174-224): clean and
key-fix the raw text, strict-parse; on failure apply the single-quote fix
to the cleaned text and parse; on failure parse the first-`[`-to-last-`]`
slice of the cleaned text. -/
def repairAndParseRubric (raw : String) : Option Json :=
  let cleaned := cleanResponse raw
  match jsonParse cleaned with
  | some v => some v
  | none =>
    match jsonParse (singleQuoteFix cleaned) with
    | some v => some v
    | none =>
      match extractArraySlice cleaned with
      | some slice => jsonParse slice
      | none => none

/-- Python `str(x)` as used by f-string interpolation on decoded JSON
values.  Strings are inserted verbatim and scalars as their Python
rendering; the `repr` of nested containers is abstracted to a marker
(every theorem quantifies over the oracle, so no claim inspects the
rendering of a container-valued field inside a prompt). -/
def pyDisplay : Json → String
  | .str s => s
  | .num n => toString n
  | .bool true => "True"
  | .bool false => "False"
  | .null => "None"
  | .arr _ => "[...]"
  | .obj _ => String.mk [lbrace] ++ "..." ++ String.mk [rbrace]

/-- Descending insertion for integer sort. -/
def insertDesc (n : Int) : List Int → List Int
  | [] => [n]
  | m :: rest => if n ≥ m then n :: m :: rest else m :: insertDesc n rest

/-- `sorted(levels.keys(), reverse=True)`. -/
def sortKeysDesc (lv : List (Int × Json)) : List Int :=
  (lv.map Prod.fst).foldr insertDesc []

/-- The scoring-guide block (`main.py` lines 307-310). -/
def levelsBlock (levels : List (Int × Json)) : String :=
  String.join ((sortKeysDesc levels).map fun level =>
    toString level ++ " points: \"" ++
      pyDisplay ((lookupLevel levels level).getD .null) ++ "\"\n")

/-- The schema-building prompt (`main.py` lines 127-150). -/
def buildRubricPrompt (raw : String) : String :=
  "\nYou are a rubric parsing assistant. Parse this rubric text and return ONLY a JSON array with no extra text, no markdown formatting.\n\nEach criterion should be an object with:\n- \"key\": the criterion name (string)\n- \"max_score\": highest possible points (integer)  \n- \"levels\": object with score numbers as keys and descriptions as values\n\nExample format:\n[\n  \x7b\n    \"key\": \"Thesis\",\n    \"max_score\": 1,\n    \"levels\": \x7b\n      \"1\": \"Clear thesis statement\",\n      \"0\": \"Missing or unclear thesis\"\n    \x7d\n  \x7d\n]\n\nRubric text to parse:\n"
    ++ raw ++ "\n\nReturn only the JSON array:"

/-- The per-criterion grading prompt (`main.py` lines 312-328). -/
def buildScorePrompt (item : RubricItem) (essay_text : String) : String :=
  "\nScore this essay for the criterion \"" ++ pyDisplay item.key ++ "\" (max "
    ++ toString item.max_score ++ " points).\n\nScoring guide:\n"
    ++ levelsBlock item.levels ++ "\nEssay text:\n" ++ essay_text
    ++ "\n\nReturn ONLY this JSON format with no extra text:\n\x7b\n  \"score\": <integer_0_to_"
    ++ toString item.max_score
    ++ ">,\n  \"snippet\": <\"supporting_sentence_from_essay_or_null\">,\n  \"suggestion\": <\"improvement_advice_or_null\">\n\x7d\n\nJSON response:"

/-- The `parse_rubric` endpoint (`main.py` lines 116-268).  `contentHash`
stands for `hashlib.sha256(raw.encode("utf-8")).hexdigest()[:12]`, a pure
function of the rubric text; `oracle` is the completion service
(prompt text in, raw completion text out).  Returns the result together
with the updated store and the number of oracle invocations made. -/
def parse_rubric (contentHash : String → String) (oracle : String → String)
    (store : RubricCache) (rubric_text : String) :
    Except ApiError String × RubricCache × Nat :=
  if (lookupCache store (contentHash rubric_text)).isSome then
    (.ok (contentHash rubric_text), store, 0)
  else
    match repairAndParseRubric (oracle (buildRubricPrompt rubric_text)) with
    | none => (.error .invalidJson, store, 1)
    | some (.arr items) =>
      match normalizeItems items with
      | .error e => (.error e, store, 1)
      | .ok schema =>
        (.ok (contentHash rubric_text),
         insertCache store (contentHash rubric_text) schema, 1)
    | some _ => (.error .notAList, store, 1)

/-- Pydantic coercion for an `Optional[str]` field: `None` and strings are
accepted, anything else is a validation error. -/
def pyOptStr : Json → Option (Option String)
  | .null => some none
  | .str s => some (some s)
  | _ => none

/-- Construction of the `LLMMatch` response record (`main.py` lines
390-398) including pydantic's field validation: `criterion` must be a
string and `snippet`/`suggestion` optional strings, else the constructor
raises and the request fails through the catch-all handler. -/
def mkLLMMatch (key : Json) (score ms : Int) (snip sugg : Json) :
    Option LLMMatch :=
  match key, pyOptStr snip, pyOptStr sugg with
  | .str k, some sv, some gv => some ⟨k, score, ms, sv, gv⟩
  | _, _, _ => none

/-- Extraction of `int(parsed["score"])`, `parsed.get("snippet")` and
`parsed.get("suggestion")` from a parse attempt (`main.py` lines 358-361
and 373-376); any failure (non-dict value, missing key, unconvertible
score) aborts the attempt. -/
def extractScoreFields (j : Json) : Option (Int × Json × Json) :=
  match j with
  | .obj kvs =>
    match objGet kvs "score" with
    | some sv =>
      (pyIntOfJson sv).map fun n =>
        (n, (objGet kvs "snippet").getD .null, (objGet kvs "suggestion").getD .null)
    | none => none
  | _ => none

/-- The range validation (`main.py` lines 364-366 and 378-380): an
out-of-range score is clamped with `max(0, min(score_val, max_score))`,
never rejected. -/
def clampScore (ms score_val : Int) : Int :=
  if score_val < 0 ∨ score_val > ms then max 0 (min score_val ms) else score_val

/-- The two-stage parse of one grading response (`main.py` lines 357-388):
strict parse of the cleaned text plus field extraction; if anything in
that block raises, retry on the single-quote-fixed text. -/
def scoreAttempt (cleaned : List Char) : Option (Int × Json × Json) :=
  match (jsonParse cleaned).bind extractScoreFields with
  | some t => some t
  | none => (jsonParse (singleQuoteFix cleaned)).bind extractScoreFields

/-- Completion of one criterion from the attempt result: total parse
failure is a hard error; otherwise clamp and build the record. -/
def finishCriterion (item : RubricItem) :
    Option (Int × Json × Json) → Except ApiError LLMMatch
  | none => .error .scoreParseError
  | some (score_val, snip, sugg) =>
    match mkLLMMatch item.key (clampScore item.max_score score_val)
        item.max_score snip sugg with
    | some m => .ok m
    | none => .error .criterionFault

/-- One iteration of the scoring loop (`main.py` lines 302-398): build the
prompt, invoke the oracle, clean the response, strict-parse and extract;
on failure retry after the single-quote fix; clamp the score into
`[0, max_score]`; build the response record. -/
def processCriterion (oracle : String → String) (essay_text : String)
    (item : RubricItem) : Except ApiError LLMMatch :=
  finishCriterion item
    (scoreAttempt (cleanResponse (oracle (buildScorePrompt item essay_text))))

/-- The scoring loop over all criteria, also counting oracle invocations;
an error on any criterion aborts the request. -/
def scoreLoop (oracle : String → String) (essay_text : String) :
    List RubricItem → Except ApiError (List LLMMatch) × Nat
  | [] => (.ok [], 0)
  | item :: rest =>
    match processCriterion oracle essay_text item with
    | .error e => (.error e, 1)
    | .ok m =>
      let p := scoreLoop oracle essay_text rest
      (p.1.map (m :: ·), p.2 + 1)

/-- The `score_essay` endpoint (`main.py` lines 285-408): unknown
`rubric_id` fails fast with 404 before any oracle call; otherwise each
cached criterion is scored in schema order. -/
def score_essay (oracle : String → String) (store : RubricCache)
    (rubric_id essay_text : String) :
    Except ApiError (List LLMMatch) × Nat :=
  match lookupCache store rubric_id with
  | none => (.error .notFound, 0)
  | some rubric => scoreLoop oracle essay_text rubric

/-- Python `text.split("\n")`. -/
def splitLines : List Char → List (List Char)
  | [] => [[]]
  | '\n' :: cs => [] :: splitLines cs
  | c :: cs =>
    match splitLines cs with
    | h :: t => (c :: h) :: t
    | [] => [[c]]

/-- Python `"\n".join(buffer)`. -/
def nlJoin : List (List Char) → List Char
  | [] => []
  | [l] => l
  | l :: ls => l ++ '\n' :: nlJoin ls

/-- Python `.title()` on the matched heading word (a single alphabetic
word): first character uppercased, the rest lowercased. -/
def titleChars : List Char → List Char
  | [] => []
  | c :: cs => c.toUpper :: cs.map Char.toLower

/-- The heading keywords of `^(Introduction|Conclusion|Discussion)\b`
(`main.py` line 439), in alternation order. -/
def hdrKeywords : List (List Char) :=
  ["Introduction".data, "Conclusion".data, "Discussion".data]

/-- Case-insensitive anchored match of one keyword followed by a word
boundary (`re.I` + trailing `\b`). -/
def kwMatch (kw l : List Char) : Bool :=
  ((l.take kw.length).map Char.toLower = kw.map Char.toLower : Bool)
    && kw.length ≤ l.length
    && (match l.drop kw.length with
        | [] => true
        | d :: _ => !isWordChar d)

/-- `hdr.match(l)`, returning the matched text (`group(1)`, in the line's
original casing). -/
def hdrMatch (l : List Char) : Option (List Char) :=
  match hdrKeywords.find? (fun kw => kwMatch kw l) with
  | some kw => some (l.take kw.length)
  | none => none

/-- The `commit` closure (`main.py` lines 441-445): a non-empty buffer is
flushed as a section whose text is the trimmed newline-join. -/
def commitSec (current : String) (buffer : List (List Char))
    (rest : List Section) : List Section :=
  if buffer.isEmpty then rest
  else ⟨current, String.mk (trimChars (nlJoin buffer))⟩ :: rest

/-- The line scan of `detect_sections` (`main.py` lines 447-453): a heading
line commits the buffer and renames the current section to the title-cased
match (the heading line itself is consumed); other lines accumulate. -/
def sectLoop : List (List Char) → String → List (List Char) → List Section
  | [], current, buffer => commitSec current buffer []
  | l :: ls, current, buffer =>
    match hdrMatch l with
    | some m => commitSec current buffer (sectLoop ls (String.mk (titleChars m)) [])
    | none => sectLoop ls current (buffer ++ [l])

/-- The `/structure` endpoint `detect_sections` (`main.py` lines 432-456). -/
def detect_sections (text : String) : List Section :=
  sectLoop (splitLines text.data) "Body" []

/-- Modelled from the spec's words (§4.5 step 5): the slice from the first
opening brace to the last closing brace — the source only ever slices
between `[` and `]`, so this exists purely for the spec-side cascade. -/
def extractBraceSlice (s : List Char) : Option (List Char) :=
  match s.findIdx? (· = lbrace), (s.reverse.findIdx? (· = rbrace)).map (s.length - 1 - ·) with
  | some start, some last =>
    if start < last + 1 then some ((s.take (last + 1)).drop start) else none
  | _, _ => none

/-- Modelled from the spec's words (§4.5 repair cascade), for comparison
with `repairAndParseRubric`: (1) strip markdown fences; (2) parse as
strict JSON; (3) only on failure, quote bare object keys and parse again;
(4) on failure, replace single quotes preserving apostrophes and parse
again; (5) on failure, parse the first-`[`-to-last-`]` (or first-brace to
last-brace) slice. -/
def specRepairCascade (raw : String) : Option Json :=
  let stripped := stripFences raw.data
  match jsonParse stripped with
  | some v => some v
  | none =>
    let quoted := quoteBareKeys stripped
    match jsonParse quoted with
    | some v => some v
    | none =>
      match jsonParse (singleQuoteFix quoted) with
      | some v => some v
      | none =>
        match extractArraySlice quoted with
        | some slice => jsonParse slice
        | none =>
          match extractBraceSlice quoted with
          | some slice => jsonParse slice
          | none => none

deriving instance DecidableEq for Except

/-! Concrete fixtures used by witnesses. -/

/-- A validated cached criterion with maximum 4. -/
def itemEx : RubricItem :=
  ⟨.str "Thesis", 4, [(4, .str "full marks"), (0, .str "missing")]⟩

/-- A store holding one cached schema under id "r1". -/
def storeEx : RubricCache := [("r1", [itemEx])]

/-- An oracle that always grades with an out-of-range low score. -/
def oracleNeg : String → String :=
  fun _ => "\x7b\"score\": -3, \"snippet\": null, \"suggestion\": null\x7d"

/-- An oracle that always grades with an out-of-range high score. -/
def oracleBig : String → String :=
  fun _ => "\x7b\"score\": 999, \"snippet\": null, \"suggestion\": null\x7d"

/-- An oracle that always grades with an in-range score. -/
def oracleOk : String → String :=
  fun _ => "\x7b\"score\": 2, \"snippet\": null, \"suggestion\": null\x7d"

/-- A stand-in for the truncated sha256 content hash in witnesses. -/
def hashFx : String → String := fun _ => "abc123def456"

/-- An oracle returning one well-formed rubric criterion. -/
def goodOracle : String → String := fun _ =>
  "[\x7b\"key\": \"Thesis\", \"max_score\": 1, \"levels\": \x7b\"1\": \"a\", \"0\": \"b\"\x7d\x7d]"

/-- An oracle returning prose that defeats the whole repair cascade. -/
def badOracle : String → String := fun _ => "I cannot parse this rubric"

/-- First-success-wins composition of parse attempts. -/
def firstSome : List (Option Json) → Option Json
  | [] => none
  | some v :: _ => some v
  | none :: rest => firstSome rest

/-! Helper lemmas about the scoring path. -/

/-- Clamped scores are in range whenever the maximum is non-negative. -/
theorem clampScore_mem_range (ms s : Int) (h : 0 ≤ ms) :
    0 ≤ clampScore ms s ∧ clampScore ms s ≤ ms := by
  unfold clampScore
  split <;> omega

/-- A successfully built record carries the requested score, criterion key
and criterion maximum. -/
theorem mkLLMMatch_some (key : Json) (s ms : Int) (snip sugg : Json)
    (m : LLMMatch) (h : mkLLMMatch key s ms snip sugg = some m) :
    key = .str m.criterion ∧ m.score = s ∧ m.max_score = ms := by
  unfold mkLLMMatch at h
  split at h
  · cases h
    simp
  · cases h

/-- A successful criterion completion records the item key and maximum
and a clamped score. -/
theorem finishCriterion_ok (item : RubricItem) (att : Option (Int × Json × Json))
    (m : LLMMatch) (h : finishCriterion item att = .ok m) :
    item.key = .str m.criterion ∧ m.max_score = item.max_score ∧
    ∃ s, m.score = clampScore item.max_score s := by
  cases att with
  | none => cases h
  | some t =>
    obtain ⟨s, snip, sugg⟩ := t
    unfold finishCriterion at h
    split at h
    next heq => cases heq
    next score_val snip2 sugg2 heq =>
      cases heq
      split at h
      next m2 heq2 =>
        cases h
        obtain ⟨h1, h2, h3⟩ := mkLLMMatch_some _ _ _ _ _ _ heq2
        exact ⟨h1, h3, s, h2⟩
      next => cases h

/-- A successful criterion iteration records the item key and maximum
and a clamped score. -/
theorem processCriterion_ok (oracle : String → String) (essay_text : String)
    (item : RubricItem) (m : LLMMatch)
    (h : processCriterion oracle essay_text item = .ok m) :
    item.key = .str m.criterion ∧ m.max_score = item.max_score ∧
    ∃ s, m.score = clampScore item.max_score s :=
  finishCriterion_ok item _ m h

/-- The criterion iteration only fails with its two scoring errors. -/
theorem processCriterion_error_kind (oracle : String → String)
    (essay_text : String) (item : RubricItem) (e : ApiError)
    (h : processCriterion oracle essay_text item = .error e) :
    e = .scoreParseError ∨ e = .criterionFault := by
  unfold processCriterion finishCriterion at h
  split at h
  · cases h
    exact Or.inl rfl
  · split at h
    · cases h
    · cases h
      exact Or.inr rfl

/-- Specification of a successful scoring loop: one output per criterion,
in order, with matching key and maximum and a clamped score. -/
theorem scoreLoop_ok (oracle : String → String) (essay_text : String) :
    ∀ (items : List RubricItem) (res : List LLMMatch),
      (scoreLoop oracle essay_text items).1 = .ok res →
      res.length = items.length ∧
      ∀ i (h1 : i < res.length) (h2 : i < items.length),
        (items.get ⟨i, h2⟩).key = .str ((res.get ⟨i, h1⟩).criterion) ∧
        (res.get ⟨i, h1⟩).max_score = (items.get ⟨i, h2⟩).max_score ∧
        ∃ s, (res.get ⟨i, h1⟩).score =
          clampScore (items.get ⟨i, h2⟩).max_score s := by
  intro items
  induction items with
  | nil =>
    intro res h
    simp [scoreLoop] at h
    subst h
    exact ⟨rfl, fun i h1 h2 => absurd h1 (by simp)⟩
  | cons item rest ih =>
    intro res h
    simp only [scoreLoop] at h
    split at h
    next e heq => simp at h
    next m heq =>
      have hmap : Except.map (fun x => m :: x)
          (scoreLoop oracle essay_text rest).1 = Except.ok res := h
      cases hr : (scoreLoop oracle essay_text rest).1 with
      | error e => rw [hr] at hmap; cases hmap
      | ok res2 =>
        rw [hr] at hmap
        have hres : res = m :: res2 := by
          simpa [Except.map] using hmap.symm
        subst hres
        obtain ⟨hlen, hfields⟩ := ih res2 hr
        obtain ⟨hk, hms, hs⟩ := processCriterion_ok oracle essay_text item m heq
        refine ⟨by simp [hlen], ?_⟩
        intro i h1 h2
        match i with
        | 0 => exact ⟨hk, hms, hs⟩
        | i + 1 =>
          simp only [List.get_cons_succ]
          exact hfields i (by simpa using h1) (by simpa using h2)

/-- C1: for every cached rubric schema with N criteria and every essay
text, a successful call of `score_essay` returns exactly N records, one
per schema criterion, in schema order, with each record's `criterion`
equal to that schema entry's key and its `max_score` equal to that
entry's maximum — for every oracle behaviour whatsoever. -/
theorem score_essay_totality (oracle : String → String) (store : RubricCache)
    (rubric_id essay_text : String) (schema : List RubricItem)
    (results : List LLMMatch) (n : Nat)
    (hlook : lookupCache store rubric_id = some schema)
    (hrun : score_essay oracle store rubric_id essay_text = (.ok results, n)) :
    results.length = schema.length ∧
    ∀ i (h1 : i < results.length) (h2 : i < schema.length),
      (schema.get ⟨i, h2⟩).key = .str ((results.get ⟨i, h1⟩).criterion) ∧
      (results.get ⟨i, h1⟩).max_score = (schema.get ⟨i, h2⟩).max_score := by
  unfold score_essay at hrun
  rw [hlook] at hrun
  have hrun2 : scoreLoop oracle essay_text schema = (.ok results, n) := hrun
  have hloop : (scoreLoop oracle essay_text schema).1 = .ok results := by
    rw [hrun2]
  obtain ⟨hlen, hf⟩ := scoreLoop_ok oracle essay_text schema results hloop
  exact ⟨hlen, fun i hh1 hh2 => ⟨(hf i hh1 hh2).1, (hf i hh1 hh2).2.1⟩⟩

/-- Witness for C1 at a concrete schema, oracle and essay. -/
theorem score_essay_totality_witness :
    ([⟨"Thesis", 2, 4, none, none⟩] : List LLMMatch).length = [itemEx].length ∧
    ([itemEx].get ⟨0, by decide⟩).key =
      .str ((([⟨"Thesis", 2, 4, none, none⟩] : List LLMMatch).get ⟨0, by decide⟩).criterion) := by
  have h := score_essay_totality oracleOk storeEx "r1" "essay"
    [itemEx] [⟨"Thesis", 2, 4, none, none⟩] 1 (by decide) (by decide)
  exact ⟨h.1, (h.2 0 (by decide) (by decide)).1⟩

/-- C2: every record of a successful `score_essay` run over a validated
cached schema satisfies `0 ≤ score ≤ max_score`, and an out-of-range
oracle score is clamped rather than rejected: -3 against maximum 4 comes
back as 0, and 999 comes back as 4. -/
theorem score_essay_clamping :
    (∀ (oracle : String → String) (store : RubricCache)
       (rubric_id essay_text : String) (schema : List RubricItem)
       (results : List LLMMatch) (n : Nat),
       lookupCache store rubric_id = some schema →
       (∀ it ∈ schema, 1 ≤ it.max_score) →
       score_essay oracle store rubric_id essay_text = (.ok results, n) →
       ∀ r ∈ results, 0 ≤ r.score ∧ r.score ≤ r.max_score) ∧
    score_essay oracleNeg storeEx "r1" "essay" =
      (.ok [⟨"Thesis", 0, 4, none, none⟩], 1) ∧
    score_essay oracleBig storeEx "r1" "essay" =
      (.ok [⟨"Thesis", 4, 4, none, none⟩], 1) := by
  refine ⟨?_, by decide, by decide⟩
  intro oracle store rid essay schema results n hlook hval hrun r hr
  unfold score_essay at hrun
  rw [hlook] at hrun
  have hrun2 : scoreLoop oracle essay schema = (.ok results, n) := hrun
  have hloop : (scoreLoop oracle essay schema).1 = .ok results := by rw [hrun2]
  obtain ⟨hlen, hf⟩ := scoreLoop_ok oracle essay schema results hloop
  obtain ⟨⟨i, hi⟩, heq⟩ := List.get_of_mem hr
  have h2 : i < schema.length := hlen ▸ hi
  obtain ⟨hkey, hms, s, hscore⟩ := hf i hi h2
  have hv := hval _ (List.get_mem schema i h2)
  have hrange := clampScore_mem_range ((schema.get ⟨i, h2⟩).max_score) s (by omega)
  subst heq
  omega

/-- Witness for C2 at a concrete schema and out-of-range oracle. -/
theorem score_essay_clamping_witness :
    0 ≤ (⟨"Thesis", 0, 4, none, none⟩ : LLMMatch).score ∧
    (⟨"Thesis", 0, 4, none, none⟩ : LLMMatch).score ≤
      (⟨"Thesis", 0, 4, none, none⟩ : LLMMatch).max_score :=
  score_essay_clamping.1 oracleNeg storeEx "r1" "essay" [itemEx]
    [⟨"Thesis", 0, 4, none, none⟩] 1
    (by decide) (by decide) (by decide) ⟨"Thesis", 0, 4, none, none⟩ (by decide)

/-- The scoring loop can never produce the unknown-rubric error. -/
theorem scoreLoop_never_notFound (oracle : String → String) (essay : String) :
    ∀ items : List RubricItem,
      (scoreLoop oracle essay items).1 ≠ .error .notFound := by
  intro items
  induction items with
  | nil => simp [scoreLoop]
  | cons item rest ih =>
    simp only [scoreLoop]
    split
    next e heq =>
      intro hcon
      have he : e = ApiError.notFound := by simpa using hcon
      subst he
      rcases processCriterion_error_kind _ _ _ _ heq with h | h <;> cases h
    next m heq =>
      intro hcon
      cases hr : (scoreLoop oracle essay rest).1 with
      | error e2 =>
        have hmap : Except.map (fun x => m :: x)
            (scoreLoop oracle essay rest).1 = .error .notFound := hcon
        rw [hr] at hmap
        have he2 : e2 = ApiError.notFound := by simpa [Except.map] using hmap
        rw [he2] at hr
        exact ih hr
      | ok r2 =>
        have hmap : Except.map (fun x => m :: x)
            (scoreLoop oracle essay rest).1 = .error .notFound := hcon
        rw [hr] at hmap
        simp [Except.map] at hmap

/-- C8: a grading request for an uncached rubric id fails fast with the
404 error and makes no oracle call, regardless of the oracle; a request
for a cached id never produces that error. -/
theorem score_essay_unknown_rubric :
    (∀ (oracle : String → String) (store : RubricCache)
       (rubric_id essay_text : String),
       lookupCache store rubric_id = none →
       score_essay oracle store rubric_id essay_text = (.error .notFound, 0)) ∧
    (∀ (oracle : String → String) (store : RubricCache)
       (rubric_id essay_text : String)
       (res : Except ApiError (List LLMMatch)) (n : Nat),
       lookupCache store rubric_id ≠ none →
       score_essay oracle store rubric_id essay_text = (res, n) →
       res ≠ .error .notFound) := by
  constructor
  · intro oracle store rid essay h
    unfold score_essay
    rw [h]
  · intro oracle store rid essay res n h hrun hcon
    cases hl : lookupCache store rid with
    | none => exact h hl
    | some schema =>
      unfold score_essay at hrun
      rw [hl] at hrun
      subst hcon
      have hrun2 : scoreLoop oracle essay schema = (.error .notFound, n) := hrun
      have hend : (scoreLoop oracle essay schema).1 = .error .notFound := by
        rw [hrun2]
      exact scoreLoop_never_notFound oracle essay schema hend

/-- Witness for C8 at a concrete empty store and a concrete cached store. -/
theorem score_essay_unknown_rubric_witness :
    score_essay oracleOk [] "missing" "essay" = (.error .notFound, 0) :=
  score_essay_unknown_rubric.1 oracleOk [] "missing" "essay" (by decide)

/-! Helper lemmas about level maps and the rubric store. -/

/-- A present level survives appending further levels. -/
theorem lookupLevel_append_of_some (lv l2 : List (Int × Json)) (k : Int)
    (v : Json) (h : lookupLevel lv k = some v) :
    lookupLevel (lv ++ l2) k = some v := by
  induction lv with
  | nil => cases h
  | cons p rest ih =>
    obtain ⟨m, w⟩ := p
    by_cases hm : m = k
    · simpa [lookupLevel, hm] using h
    · rw [lookupLevel] at h
      rw [if_neg hm] at h
      simpa [lookupLevel, hm] using ih h

/-- An absent level defers lookup to the appended levels. -/
theorem lookupLevel_append_of_none (lv l2 : List (Int × Json)) (k : Int)
    (h : lookupLevel lv k = none) :
    lookupLevel (lv ++ l2) k = lookupLevel l2 k := by
  induction lv with
  | nil => simp
  | cons p rest ih =>
    obtain ⟨m, w⟩ := p
    by_cases hm : m = k
    · rw [lookupLevel, if_pos hm] at h
      cases h
    · rw [lookupLevel, if_neg hm] at h
      simpa [lookupLevel, hm] using ih h

/-- The filling loop preserves every level already present. -/
theorem fillLevelsGo_preserves (count : Nat) :
    ∀ (n : Nat) (lv : List (Int × Json)) (k : Int) (v : Json),
      lookupLevel lv k = some v →
      lookupLevel (fillLevelsGo lv n count) k = some v := by
  induction count with
  | zero => intro n lv k v h; exact h
  | succ c ih =>
    intro n lv k v h
    simp only [fillLevelsGo]
    apply ih
    split
    · exact h
    · exact lookupLevel_append_of_some lv _ k v h

/-- After the filling loop every level in the processed range is present. -/
theorem fillLevelsGo_total (count : Nat) :
    ∀ (n : Nat) (lv : List (Int × Json)) (m : Nat),
      n ≤ m → m < n + count →
      (lookupLevel (fillLevelsGo lv n count) (m : Int)).isSome = true := by
  induction count with
  | zero => intro n lv m h1 h2; omega
  | succ c ih =>
    intro n lv m h1 h2
    simp only [fillLevelsGo]
    by_cases hm : m = n
    · subst hm
      have hsome : ∃ v, lookupLevel
          (if (lookupLevel lv (m : Int)).isSome then lv
           else lv ++ [((m : Int), .str (placeholderDesc m))]) (m : Int) = some v := by
        split
        next hcond =>
          obtain ⟨v, hv⟩ := Option.isSome_iff_exists.mp hcond
          exact ⟨v, hv⟩
        next hcond =>
          have hnone : lookupLevel lv (m : Int) = none := by
            cases hopt : lookupLevel lv (m : Int) with
            | none => rfl
            | some v => exact absurd (by simp [hopt]) hcond
          refine ⟨.str (placeholderDesc m), ?_⟩
          rw [lookupLevel_append_of_none _ _ _ hnone]
          simp [lookupLevel]
      obtain ⟨v, hv⟩ := hsome
      rw [fillLevelsGo_preserves c (m + 1) _ (m : Int) v hv]
      rfl
    · exact ih (n + 1) _ m (by omega) (by omega)

/-- A level missing from the converted map but inside the range comes out
as the synthesized placeholder. -/
theorem fillLevelsGo_fills (count : Nat) :
    ∀ (n : Nat) (lv : List (Int × Json)) (m : Nat),
      n ≤ m → m < n + count →
      lookupLevel lv (m : Int) = none →
      lookupLevel (fillLevelsGo lv n count) (m : Int) =
        some (.str (placeholderDesc m)) := by
  induction count with
  | zero => intro n lv m h1 h2; omega
  | succ c ih =>
    intro n lv m h1 h2 hnone
    simp only [fillLevelsGo]
    by_cases hm : m = n
    · subst hm
      have hcond : ¬ ((lookupLevel lv (m : Int)).isSome = true) := by
        simp [hnone]
      rw [if_neg hcond]
      apply fillLevelsGo_preserves
      rw [lookupLevel_append_of_none _ _ _ hnone]
      simp [lookupLevel]
    · have hne : ((n : Int) = (m : Int)) = False := by
        simp
        omega
      have hnone2 : lookupLevel
          (if (lookupLevel lv (n : Int)).isSome then lv
           else lv ++ [((n : Int), .str (placeholderDesc n))]) (m : Int) = none := by
        split
        · exact hnone
        · rw [lookupLevel_append_of_none _ _ _ hnone]
          simp [lookupLevel, hne]
      exact ih (n + 1) _ m (by omega) (by omega) hnone2

/-- Structure of an accepted item: positive maximum and a filled level
map. -/
theorem normalizeItem_ok_shape (j : Json) (it : RubricItem)
    (h : normalizeItem j = .ok it) :
    1 ≤ it.max_score ∧
    ∃ lv0, it.levels = fillLevels it.max_score lv0 := by
  unfold normalizeItem at h
  split at h
  case _ kvs =>
    split at h
    case _ keyV msV levelsV =>
      split at h
      case _ levelsRaw =>
        split at h
        case _ => cases h
        case _ lv0 hconv =>
          split at h
          case _ ms hms =>
            split at h
            case _ hpos =>
              cases h
              exact ⟨hpos, lv0, rfl⟩
            case _ => cases h
          case _ => cases h
      case _ => cases h
    case _ => cases h
  case _ => cases h

/-- Validity of an accepted item: positive maximum and a total level map
on `[0, max_score]`. -/
theorem normalizeItem_ok_valid (j : Json) (it : RubricItem)
    (h : normalizeItem j = .ok it) :
    1 ≤ it.max_score ∧
    ∀ n : Int, 0 ≤ n → n ≤ it.max_score →
      (lookupLevel it.levels n).isSome = true := by
  obtain ⟨hpos, lv0, hlv⟩ := normalizeItem_ok_shape j it h
  refine ⟨hpos, fun n h0 hle => ?_⟩
  have hn : n = ((n.toNat : Nat) : Int) := by omega
  rw [hlv, fillLevels, hn]
  exact fillLevelsGo_total (it.max_score.toNat + 1) 0 lv0 n.toNat
    (by omega) (by omega)

/-- Every item of an accepted schema came from an accepted item
validation. -/
theorem normalizeItems_ok_valid :
    ∀ (items : List Json) (schema : List RubricItem),
      normalizeItems items = .ok schema →
      ∀ it ∈ schema, ∃ j, normalizeItem j = .ok it := by
  intro items
  induction items with
  | nil =>
    intro schema h it hit
    cases h
    cases hit
  | cons j rest ih =>
    intro schema h it hit
    unfold normalizeItems at h
    split at h
    · cases h
    next it0 hj =>
      cases hr : normalizeItems rest with
      | error e => rw [hr] at h; cases h
      | ok schema0 =>
        rw [hr] at h
        have hs : schema = it0 :: schema0 := by
          simpa [Except.map] using h.symm
        subst hs
        rcases hit with _ | ⟨_, hmem⟩
        · exact ⟨j, hj⟩
        · exact ih schema0 hr it hmem

/-- A store lookup hit survives unchanged stores; a fresh insertion is
found afterwards. -/
theorem lookupCache_append_of_none (store : RubricCache) (k : String)
    (v : List RubricItem) (h : lookupCache store k = none) :
    lookupCache (store ++ [(k, v)]) k = some v := by
  induction store with
  | nil => simp [lookupCache]
  | cons p rest ih =>
    obtain ⟨k2, v2⟩ := p
    by_cases hk : k2 = k
    · rw [lookupCache, if_pos hk] at h
      cases h
    · rw [lookupCache, if_neg hk] at h
      simpa [lookupCache, hk] using ih h

/-- C4: every schema item accepted by `parse_rubric` validation carries a
level description for every integer in `[0, max_score]`; levels present
in the oracle response are kept, missing ones are synthesized as
placeholders; the example item with `max_score = 3` and levels 3 and 0 is
normalized to levels 0-3 with 1 and 2 as placeholders. -/
theorem parse_rubric_level_completeness :
    (∀ (j : Json) (it : RubricItem), normalizeItem j = .ok it →
       1 ≤ it.max_score ∧
       ∀ n : Int, 0 ≤ n → n ≤ it.max_score →
         (lookupLevel it.levels n).isSome = true) ∧
    (∀ (lv : List (Int × Json)) (ms n : Int) (v : Json),
       lookupLevel lv n = some v →
       lookupLevel (fillLevels ms lv) n = some v) ∧
    (∀ (lv : List (Int × Json)) (ms : Int) (m : Nat),
       1 ≤ ms → (m : Int) ≤ ms →
       lookupLevel lv (m : Int) = none →
       lookupLevel (fillLevels ms lv) (m : Int) =
         some (.str (placeholderDesc m))) ∧
    normalizeItem (.obj [("key", .str "X"), ("max_score", .num 3),
        ("levels", .obj [("3", .str "Excellent"), ("0", .str "Poor")])]) =
      .ok ⟨.str "X", 3, [(3, .str "Excellent"), (0, .str "Poor"),
        (1, .str (placeholderDesc 1)), (2, .str (placeholderDesc 2))]⟩ := by
  refine ⟨normalizeItem_ok_valid, ?_, ?_, by decide⟩
  · intro lv ms n v h
    exact fillLevelsGo_preserves _ 0 lv n v h
  · intro lv ms m h1 h2 hnone
    exact fillLevelsGo_fills (ms.toNat + 1) 0 lv m (by omega) (by omega) hnone

/-- Witness for C4 at the example schema item. -/
theorem parse_rubric_level_completeness_witness :
    (lookupLevel [(3, Json.str "Excellent"), (0, .str "Poor"),
      (1, .str (placeholderDesc 1)), (2, .str (placeholderDesc 2))]
      2).isSome = true :=
  (parse_rubric_level_completeness.1
    (.obj [("key", .str "X"), ("max_score", .num 3),
      ("levels", .obj [("3", .str "Excellent"), ("0", .str "Poor")])])
    ⟨.str "X", 3, [(3, .str "Excellent"), (0, .str "Poor"),
      (1, .str (placeholderDesc 1)), (2, .str (placeholderDesc 2))]⟩
    (by decide)).2 2 (by decide) (by decide)

/-- C6: a successful `parse_rubric` yields the content hash of the text as
id, and an identical resubmission returns the same id from the cache,
leaves the store unchanged, and makes no oracle call. -/
theorem parse_rubric_idempotent :
    ∀ (contentHash oracle : String → String) (store : RubricCache)
      (rubric_text id : String) (store2 : RubricCache) (k : Nat),
      parse_rubric contentHash oracle store rubric_text = (.ok id, store2, k) →
      id = contentHash rubric_text ∧
      parse_rubric contentHash oracle store2 rubric_text = (.ok id, store2, 0) := by
  intro hf oracle store raw id store2 k h
  unfold parse_rubric at h ⊢
  by_cases hl : (lookupCache store (hf raw)).isSome
  · rw [if_pos hl] at h
    simp only [Prod.mk.injEq, Except.ok.injEq] at h
    obtain ⟨h1, h2, h3⟩ := h
    subst h1
    subst h2
    rw [if_pos hl]
    exact ⟨rfl, rfl⟩
  · rw [if_neg hl] at h
    have hnone : lookupCache store (hf raw) = none := by
      cases hopt : lookupCache store (hf raw) with
      | none => rfl
      | some v2 => exact absurd (by simp [hopt]) hl
    split at h
    next => simp at h
    next items hrep =>
      split at h
      next e hnorm => simp at h
      next schema hnorm =>
        simp only [Prod.mk.injEq, Except.ok.injEq] at h
        obtain ⟨h1, h2, h3⟩ := h
        subst h1
        subst h2
        have hfound := lookupCache_append_of_none store (hf raw) schema hnone
        refine ⟨rfl, ?_⟩
        rw [if_pos (by simp [insertCache, hfound])]
    next v hne hrep => simp at h

/-- Witness for C6: a concrete first submission stores the schema; the
theorem yields the cached second submission with zero oracle calls. -/
theorem parse_rubric_idempotent_witness :
    "abc123def456" = hashFx "rubric" ∧
    parse_rubric hashFx goodOracle
      [("abc123def456", [⟨.str "Thesis", 1, [(1, .str "a"), (0, .str "b")]⟩])]
      "rubric" =
      (.ok "abc123def456",
       [("abc123def456", [⟨.str "Thesis", 1, [(1, .str "a"), (0, .str "b")]⟩])],
       0) :=
  parse_rubric_idempotent hashFx goodOracle [] "rubric" "abc123def456"
    [("abc123def456", [⟨.str "Thesis", 1, [(1, .str "a"), (0, .str "b")]⟩])] 1
    (by decide)

/-- C7: `parse_rubric` mutates the store atomically — any failure leaves
the store exactly as it was, and a success either hits the cache (store
unchanged) or inserts, under a previously absent id, one fully validated
schema in which every item has a positive maximum and a total level map
on `[0, max_score]`. -/
theorem parse_rubric_atomic_cache :
    ∀ (contentHash oracle : String → String) (store : RubricCache)
      (rubric_text : String) (res : Except ApiError String)
      (store2 : RubricCache) (k : Nat),
      parse_rubric contentHash oracle store rubric_text = (res, store2, k) →
      ((∃ e, res = .error e) → store2 = store) ∧
      (∀ id, res = .ok id →
        store2 = store ∨
        (lookupCache store id = none ∧
         ∃ schema, store2 = insertCache store id schema ∧
           ∀ it ∈ schema, 1 ≤ it.max_score ∧
             ∀ n : Int, 0 ≤ n → n ≤ it.max_score →
               (lookupLevel it.levels n).isSome = true)) := by
  intro hf oracle store raw res store2 k h
  unfold parse_rubric at h
  by_cases hl : (lookupCache store (hf raw)).isSome
  · rw [if_pos hl] at h
    simp only [Prod.mk.injEq] at h
    obtain ⟨h1, h2, h3⟩ := h
    subst h2
    exact ⟨fun _ => rfl, fun id _ => Or.inl rfl⟩
  · rw [if_neg hl] at h
    have hnone : lookupCache store (hf raw) = none := by
      cases hopt : lookupCache store (hf raw) with
      | none => rfl
      | some v2 => exact absurd (by simp [hopt]) hl
    split at h
    next =>
      simp only [Prod.mk.injEq] at h
      obtain ⟨h1, h2, h3⟩ := h
      subst h1
      subst h2
      exact ⟨fun _ => rfl, fun id hid => by cases hid⟩
    next items hrep =>
      split at h
      next e hnorm =>
        simp only [Prod.mk.injEq] at h
        obtain ⟨h1, h2, h3⟩ := h
        subst h1
        subst h2
        exact ⟨fun _ => rfl, fun id hid => by cases hid⟩
      next schema hnorm =>
        simp only [Prod.mk.injEq] at h
        obtain ⟨h1, h2, h3⟩ := h
        subst h1
        subst h2
        constructor
        · intro hcon
          obtain ⟨e, he⟩ := hcon
          cases he
        · intro id hid
          have hid2 : id = hf raw := by cases hid; rfl
          subst hid2
          refine Or.inr ⟨hnone, schema, rfl, fun it hit => ?_⟩
          obtain ⟨j, hj⟩ := normalizeItems_ok_valid items schema hnorm it hit
          exact normalizeItem_ok_valid j it hj
    next v hne hrep =>
      simp only [Prod.mk.injEq] at h
      obtain ⟨h1, h2, h3⟩ := h
      subst h1
      subst h2
      exact ⟨fun _ => rfl, fun id hid => by cases hid⟩

/-- Witness for C7 at a concrete failing build over an empty store. -/
theorem parse_rubric_atomic_cache_witness :
    ([] : RubricCache) = ([] : RubricCache) :=
  (parse_rubric_atomic_cache hashFx badOracle [] "rubric"
    (.error .invalidJson) [] 1 (by decide)).1 ⟨.invalidJson, rfl⟩

/-! Helper lemmas about the section segmenter. -/

/-- Case analysis for `toLower`: the only characters lowercasing to `i`
uppercase to `I`. -/
theorem toUpper_of_toLower_i (c : Char) (h : c.toLower = 'i') :
    c.toUpper = 'I' := by
  obtain ⟨n, hn⟩ : ∃ n, c.toNat = n := ⟨_, rfl⟩
  have hc : c = Char.ofNat n := by rw [← hn, Char.ofNat_toNat]
  by_cases hb : 65 ≤ n ∧ n ≤ 90
  · obtain ⟨h1, h2⟩ := hb
    interval_cases n <;> rw [hc] at h ⊢ <;> revert h <;> decide
  · have hl : c.toLower = c := by
      simp only [Char.toLower]
      rw [if_neg (show ¬(c.toNat ≥ 65 ∧ c.toNat ≤ 90) by omega)]
    rw [hl] at h
    subst h
    decide

/-- The only characters lowercasing to `c` uppercase to `C`. -/
theorem toUpper_of_toLower_c (c : Char) (h : c.toLower = 'c') :
    c.toUpper = 'C' := by
  obtain ⟨n, hn⟩ : ∃ n, c.toNat = n := ⟨_, rfl⟩
  have hc : c = Char.ofNat n := by rw [← hn, Char.ofNat_toNat]
  by_cases hb : 65 ≤ n ∧ n ≤ 90
  · obtain ⟨h1, h2⟩ := hb
    interval_cases n <;> rw [hc] at h ⊢ <;> revert h <;> decide
  · have hl : c.toLower = c := by
      simp only [Char.toLower]
      rw [if_neg (show ¬(c.toNat ≥ 65 ∧ c.toNat ≤ 90) by omega)]
    rw [hl] at h
    subst h
    decide

/-- The only characters lowercasing to `d` uppercase to `D`. -/
theorem toUpper_of_toLower_d (c : Char) (h : c.toLower = 'd') :
    c.toUpper = 'D' := by
  obtain ⟨n, hn⟩ : ∃ n, c.toNat = n := ⟨_, rfl⟩
  have hc : c = Char.ofNat n := by rw [← hn, Char.ofNat_toNat]
  by_cases hb : 65 ≤ n ∧ n ≤ 90
  · obtain ⟨h1, h2⟩ := hb
    interval_cases n <;> rw [hc] at h ⊢ <;> revert h <;> decide
  · have hl : c.toLower = c := by
      simp only [Char.toLower]
      rw [if_neg (show ¬(c.toNat ≥ 65 ∧ c.toNat ≤ 90) by omega)]
    rw [hl] at h
    subst h
    decide

/-- Title-casing a case-insensitive match of "Introduction" yields the
canonical keyword. -/
theorem titleChars_intro (m : List Char)
    (h : m.map Char.toLower = "introduction".data) :
    titleChars m = "Introduction".data := by
  cases m with
  | nil => exact absurd h (by decide)
  | cons c cs =>
    have hd : ("introduction".data : List Char) = 'i' :: "ntroduction".data := rfl
    rw [List.map_cons, hd] at h
    obtain ⟨h1, h2⟩ := List.cons.inj h
    simp only [titleChars]
    rw [h2, toUpper_of_toLower_i c h1]

/-- Title-casing a case-insensitive match of "Conclusion" yields the
canonical keyword. -/
theorem titleChars_concl (m : List Char)
    (h : m.map Char.toLower = "conclusion".data) :
    titleChars m = "Conclusion".data := by
  cases m with
  | nil => exact absurd h (by decide)
  | cons c cs =>
    have hd : ("conclusion".data : List Char) = 'c' :: "onclusion".data := rfl
    rw [List.map_cons, hd] at h
    obtain ⟨h1, h2⟩ := List.cons.inj h
    simp only [titleChars]
    rw [h2, toUpper_of_toLower_c c h1]

/-- Title-casing a case-insensitive match of "Discussion" yields the
canonical keyword. -/
theorem titleChars_disc (m : List Char)
    (h : m.map Char.toLower = "discussion".data) :
    titleChars m = "Discussion".data := by
  cases m with
  | nil => exact absurd h (by decide)
  | cons c cs =>
    have hd : ("discussion".data : List Char) = 'd' :: "iscussion".data := rfl
    rw [List.map_cons, hd] at h
    obtain ⟨h1, h2⟩ := List.cons.inj h
    simp only [titleChars]
    rw [h2, toUpper_of_toLower_d c h1]

/-- The title-cased text of a heading match is one of the three canonical
keywords. -/
theorem hdrMatch_some_title (l m : List Char) (h : hdrMatch l = some m) :
    titleChars m = "Introduction".data ∨ titleChars m = "Conclusion".data ∨
    titleChars m = "Discussion".data := by
  unfold hdrMatch at h
  cases hf : hdrKeywords.find? (fun kw => kwMatch kw l) with
  | none => rw [hf] at h; cases h
  | some kw =>
    rw [hf] at h
    cases h
    have hp := List.find?_some hf
    have hmem := List.mem_of_find?_eq_some hf
    unfold kwMatch at hp
    simp only [Bool.and_eq_true, decide_eq_true_eq] at hp
    obtain ⟨⟨hlow, hlen⟩, hbnd⟩ := hp
    simp only [hdrKeywords, List.mem_cons, List.not_mem_nil, or_false] at hmem
    rcases hmem with rfl | rfl | rfl
    · exact Or.inl (titleChars_intro _ (hlow.trans (by decide)))
    · exact Or.inr (Or.inl (titleChars_concl _ (hlow.trans (by decide))))
    · exact Or.inr (Or.inr (titleChars_disc _ (hlow.trans (by decide))))

/-- Membership in a committed buffer: either the flushed section itself
(from a non-empty buffer) or a section of the tail. -/
theorem mem_commitSec (cur : String) (buf : List (List Char))
    (rest : List Section) (s : Section) (h : s ∈ commitSec cur buf rest) :
    (buf ≠ [] ∧ s = ⟨cur, String.mk (trimChars (nlJoin buf))⟩) ∨ s ∈ rest := by
  unfold commitSec at h
  split at h
  next hbuf => exact Or.inr h
  next hbuf =>
    rcases List.mem_cons.mp h with h | h
    · refine Or.inl ⟨?_, h⟩
      simpa [List.isEmpty_iff] using hbuf
    · exact Or.inr h

/-- Every section name produced by the scan is the incoming current name
or a title-cased heading keyword. -/
theorem sectLoop_names (ls : List (List Char)) :
    ∀ (cur : String) (buf : List (List Char)) (s : Section),
      (cur = "Body" ∨ cur = "Introduction" ∨ cur = "Conclusion" ∨
        cur = "Discussion") →
      s ∈ sectLoop ls cur buf →
      s.name = "Body" ∨ s.name = "Introduction" ∨ s.name = "Conclusion" ∨
        s.name = "Discussion" := by
  induction ls with
  | nil =>
    intro cur buf s hcur hs
    unfold sectLoop at hs
    rcases mem_commitSec cur buf [] s hs with ⟨-, rfl⟩ | h
    · exact hcur
    · cases h
  | cons l ls ih =>
    intro cur buf s hcur hs
    unfold sectLoop at hs
    cases hm : hdrMatch l with
    | none =>
      rw [hm] at hs
      exact ih cur (buf ++ [l]) s hcur hs
    | some m =>
      rw [hm] at hs
      rcases mem_commitSec cur buf _ s hs with ⟨-, rfl⟩ | h
      · exact hcur
      · refine ih (String.mk (titleChars m)) [] s ?_ h
        rcases hdrMatch_some_title l m hm with ht | ht | ht
        · right; left; rw [ht]
        · right; right; left; rw [ht]
        · right; right; right; rw [ht]

/-- When no line is a heading, every produced section keeps the incoming
current name. -/
theorem sectLoop_const_name (ls : List (List Char)) :
    ∀ (cur : String) (buf : List (List Char)) (s : Section),
      (∀ l ∈ ls, hdrMatch l = none) →
      s ∈ sectLoop ls cur buf → s.name = cur := by
  induction ls with
  | nil =>
    intro cur buf s hnone hs
    unfold sectLoop at hs
    rcases mem_commitSec cur buf [] s hs with ⟨-, rfl⟩ | h
    · rfl
    · cases h
  | cons l ls ih =>
    intro cur buf s hnone hs
    unfold sectLoop at hs
    rw [hnone l (by simp)] at hs
    exact ih cur (buf ++ [l]) s (fun l2 hl2 => hnone l2 (by simp [hl2])) hs

/-- Every produced section is the trimmed newline-join of a non-empty
line buffer. -/
theorem sectLoop_text (ls : List (List Char)) :
    ∀ (cur : String) (buf : List (List Char)) (s : Section),
      s ∈ sectLoop ls cur buf →
      ∃ b : List (List Char), b ≠ [] ∧
        s.text = String.mk (trimChars (nlJoin b)) := by
  induction ls with
  | nil =>
    intro cur buf s hs
    unfold sectLoop at hs
    rcases mem_commitSec cur buf [] s hs with ⟨hb, rfl⟩ | h
    · exact ⟨buf, hb, rfl⟩
    · cases h
  | cons l ls ih =>
    intro cur buf s hs
    unfold sectLoop at hs
    cases hm : hdrMatch l with
    | none =>
      rw [hm] at hs
      exact ih cur (buf ++ [l]) s hs
    | some m =>
      rw [hm] at hs
      rcases mem_commitSec cur buf _ s hs with ⟨hb, rfl⟩ | h
      · exact ⟨buf, hb, rfl⟩
      · exact ih (String.mk (titleChars m)) [] s h

/-- Counterexample to C5: on input with no recognized headings and two
blank-line-separated paragraphs, `detect_sections` does not apply the
claimed paragraph fallback. -/
theorem detect_sections_fallback_cex :
    detect_sections "P1.\n\nP2." ≠
      [⟨"Introduction", "P1."⟩, ⟨"Conclusion", "P2."⟩] := by
  decide

/-- C5 (amended): `detect_sections` has no paragraph-based fallback — when
no line matches a heading keyword the whole text becomes one section named
"Body"; in particular "P1.\n\nP2." yields exactly that, and more generally
every section of a heading-free input is named "Body". -/
theorem detect_sections_no_fallback :
    detect_sections "P1.\n\nP2." = [⟨"Body", "P1.\n\nP2."⟩] ∧
    (∀ (text : String) (s : Section),
       (∀ l ∈ splitLines text.data, hdrMatch l = none) →
       s ∈ detect_sections text → s.name = "Body") := by
  refine ⟨by decide, ?_⟩
  intro text s hnone hs
  exact sectLoop_const_name (splitLines text.data) "Body" [] s hnone hs

/-- Witness for C5 (amended) at the concrete two-paragraph input. -/
theorem detect_sections_no_fallback_witness :
    (⟨"Body", "P1.\n\nP2."⟩ : Section).name = "Body" :=
  detect_sections_no_fallback.2 "P1.\n\nP2." ⟨"Body", "P1.\n\nP2."⟩
    (by decide) (by decide)

/-- Counterexample to C9: the empty input produces a section whose text is
empty after trimming (the line buffer holds one empty line, which is a
non-empty buffer). -/
theorem detect_sections_empty_text_cex :
    ¬ (∀ (text : String) (s : Section), s ∈ detect_sections text →
         String.mk (trimChars s.text.data) ≠ "") := by
  intro hall
  exact hall "" ⟨"Body", ""⟩ (by decide) (by decide)

/-- C9 (amended): sections are only emitted from a non-empty buffered line
list, and every section text is the trimmed newline-join of its buffer —
which can be the empty string when all buffered lines are blank, as on the
empty input. -/
theorem detect_sections_text_trimmed_buffer :
    (∀ (text : String) (s : Section), s ∈ detect_sections text →
       ∃ b : List (List Char), b ≠ [] ∧
         s.text = String.mk (trimChars (nlJoin b))) ∧
    detect_sections "" = [⟨"Body", ""⟩] := by
  refine ⟨?_, by decide⟩
  intro text s hs
  exact sectLoop_text (splitLines text.data) "Body" [] s hs

/-- Witness for C9 (amended) at a one-line input. -/
theorem detect_sections_text_trimmed_buffer_witness :
    ∃ b : List (List Char), b ≠ [] ∧
      ("a" : String) = String.mk (trimChars (nlJoin b)) :=
  detect_sections_text_trimmed_buffer.1 "a" ⟨"Body", "a"⟩ (by decide)

/-- C10: every section name is drawn from exactly
Body/Introduction/Conclusion/Discussion; a line starting with a keyword
(case-insensitively, at line start, with a word boundary) starts a new
section under the title-cased keyword, text before the first heading is
"Body", and a keyword without a word boundary does not match. -/
theorem detect_sections_names :
    (∀ (text : String) (s : Section), s ∈ detect_sections text →
       s.name = "Body" ∨ s.name = "Introduction" ∨ s.name = "Conclusion" ∨
         s.name = "Discussion") ∧
    detect_sections "before\nINTRODUCTION x\nafter" =
      [⟨"Body", "before"⟩, ⟨"Introduction", "after"⟩] ∧
    detect_sections "Introductions\nz" = [⟨"Body", "Introductions\nz"⟩] ∧
    detect_sections "discussion A\nx\nCONCLUSION.\ny" =
      [⟨"Discussion", "x"⟩, ⟨"Conclusion", "y"⟩] := by
  refine ⟨?_, by decide, by decide, by decide⟩
  intro text s hs
  exact sectLoop_names (splitLines text.data) "Body" [] s (Or.inl rfl) hs

/-- Witness for C10 at a concrete mixed-case input. -/
theorem detect_sections_names_witness :
    (⟨"Introduction", "after"⟩ : Section).name = "Body" ∨
    (⟨"Introduction", "after"⟩ : Section).name = "Introduction" ∨
    (⟨"Introduction", "after"⟩ : Section).name = "Conclusion" ∨
    (⟨"Introduction", "after"⟩ : Section).name = "Discussion" :=
  detect_sections_names.1 "before\nINTRODUCTION x\nafter"
    ⟨"Introduction", "after"⟩ (by decide)

/-- Counterexample to C3: on the already strict-valid input `["a: b"]`
the cascade as specified (strict parse before any key quoting) succeeds,
while the implemented pipeline applies the key-quoting substitution
first, corrupts the string payload, and fails every stage. -/
theorem repair_cascade_order_cex :
    specRepairCascade "[\"a: b\"]" = some (.arr [.str "a: b"]) ∧
    repairAndParseRubric "[\"a: b\"]" = none ∧
    repairAndParseRubric "[\"a: b\"]" ≠ specRepairCascade "[\"a: b\"]" := by
  refine ⟨by decide, by decide, by decide⟩

set_option maxHeartbeats 2000000 in
/-- C3 (amended): the repair pipeline strips fences and then applies the
key-quoting substitutions unconditionally, before the first strict parse;
the attempt order on the cleaned text is: strict parse, single-quote fix
and reparse, then the first-`[`-to-last-`]` slice; and the fenced
unquoted-key example still parses to the claimed object on both the
schema path and the per-criterion scoring path. -/
theorem repair_cascade_amended :
    (∀ raw : String,
       repairAndParseRubric raw =
         firstSome [jsonParse (cleanResponse raw),
           jsonParse (singleQuoteFix (cleanResponse raw)),
           (extractArraySlice (cleanResponse raw)).bind jsonParse]) ∧
    repairAndParseRubric "```json\n\x7bscore: 3, snippet: null\x7d\n```" =
      some (.obj [("score", .num 3), ("snippet", .null)]) ∧
    scoreAttempt (cleanResponse "```json\n\x7bscore: 3, snippet: null\x7d\n```") =
      some (3, .null, .null) := by
  refine ⟨?_, rfl, rfl⟩
  intro raw
  unfold repairAndParseRubric
  cases h1 : jsonParse (cleanResponse raw) with
  | some v => simp [h1, firstSome]
  | none =>
    cases h2 : jsonParse (singleQuoteFix (cleanResponse raw)) with
    | some v => simp [h1, h2, firstSome]
    | none =>
      cases h3 : extractArraySlice (cleanResponse raw) with
      | some slice =>
        simp only [h1, h2, h3, firstSome, Option.bind]
        cases jsonParse slice <;> simp [firstSome]
      | none => simp [h1, h2, h3, firstSome]
